import Mathlib

/-!
Shallow embedding of the tile pyramid generator in
src/generate_text_tiles.py.  Machine floats are modelled by exact
rationals where the code is arithmetic on concrete data, and by real
numbers for the transcendental geographic conversions.  A tile file on
disk is modelled structurally as a list of rows of rational values, and
the disk itself as an association list from tile coordinates to file
contents.
-/

namespace TextTiles

/-- A tile coordinate pair (x, y) at some zoom level. -/
abbrev Tile := ℤ × ℤ

/-- An elevation grid, indexed by (row, column).  The numpy arrays of the
python code are modelled as total functions; the code only ever reads
indices inside the declared size. -/
abbrev Grid := ℕ → ℕ → ℚ

/-- Sampling position used by scipy.ndimage.zoom with order 1 and the
default endpoint alignment (grid_mode false): output index i of an axis
of output length n samples input coordinate i * (2n - 1) / (n - 1), the
input axis having length 2n.  For n = 1 scipy uses position 0, and the
rational convention x / 0 = 0 yields the same value here. -/
def zoomPos (n i : ℕ) : ℚ := (i : ℚ) * (2 * (n : ℚ) - 1) / ((n : ℚ) - 1)

/-- Order-1 (bilinear) spline evaluation of a grid of side m at the
fractional position (y, x), as performed by scipy.ndimage.zoom on
in-range coordinates: the four surrounding samples are blended with the
fractional offsets; the upper neighbour index is clamped at the last
sample, where its weight is zero. -/
def zoom_interp (g : Grid) (m : ℕ) (y x : ℚ) : ℚ :=
  let y1 := (⌊y⌋).toNat
  let x1 := (⌊x⌋).toNat
  let y2 := min (y1 + 1) (m - 1)
  let x2 := min (x1 + 1) (m - 1)
  let dy := y - (y1 : ℚ)
  let dx := x - (x1 : ℚ)
  (1 - dy) * ((1 - dx) * g y1 x1 + dx * g y1 x2) +
    dy * ((1 - dx) * g y2 x1 + dx * g y2 x2)

/-- np.hstack of two grids with n columns each (line 148 resp. 149 of
generate_text_tiles.py). -/
def hstack2 (a b : Grid) (n : ℕ) : Grid :=
  fun i j => if j < n then a i j else b i (j - n)

/-- np.vstack of two grids with n rows each (line 150). -/
def vstack2 (a b : Grid) (n : ℕ) : Grid :=
  fun i j => if i < n then a i j else b (i - n) j

/-- The 2n x 2n matrix assembled from the four child grids, top row
p0 p1, bottom row p2 p3 (lines 148-150). -/
def combineQuad (p0 p1 p2 p3 : Grid) (n : ℕ) : Grid :=
  vstack2 (hstack2 p0 p1 n) (hstack2 p2 p3 n) n

/-- downsample_tile (lines 145-165): assemble the four children and apply
ndimage.zoom with factor tile_size / (2 tile_size) = 0.5 and order 1.
The zoomed output shape round(2n * 0.5) equals n exactly, so the
crop-or-pad branch of lines 157-163 is dead code and contributes
nothing. -/
def downsample_tile (p0 p1 p2 p3 : Grid) (ts : ℕ) : Grid :=
  fun i j =>
    zoom_interp (combineQuad p0 p1 p2 p3 ts) (2 * ts) (zoomPos ts i) (zoomPos ts j)

/-- Modelled from the words of the spec, for comparison against the code
only: area-consistent 2:1 decimation, each parent cell being the average
of the corresponding 2 x 2 block of the assembled matrix. -/
def specBlockAverage (g : Grid) : Grid :=
  fun i j =>
    (g (2*i) (2*j) + g (2*i) (2*j+1) + g (2*i+1) (2*j) + g (2*i+1) (2*j+1)) / 4

/-- Round half to even, the rounding applied when a python float is
formatted with a fixed number of fractional digits. -/
def rhe (q : ℚ) : ℤ :=
  if q - ⌊q⌋ < 1/2 then ⌊q⌋
  else if 1/2 < q - ⌊q⌋ then ⌊q⌋ + 1
  else if ⌊q⌋ % 2 = 0 then ⌊q⌋ else ⌊q⌋ + 1

/-- The value written for one sample by save_tile_data, formatted with
two fractional digits (line 141). -/
def fmt2 (q : ℚ) : ℚ := (rhe (q * 100) : ℚ) / 100

/-- save_tile_data (lines 135-143): the persisted file, one list entry
per line, one rational per comma separated 2-decimal token. -/
def save_tile_data (g : Grid) (n : ℕ) : List (List ℚ) :=
  (List.range n).map fun i => (List.range n).map fun j => fmt2 (g i j)

/-- Parsing of a stored tile file back into an array (lines 126-131). -/
def parse_tile_file (file : List (List ℚ)) : Grid :=
  fun i j => (file.getD i []).getD j 0

/-- load_tile_data (lines 117-133) over a modelled disk: a missing file
yields none. -/
def load_tile_data (disk : List (Tile × List (List ℚ))) (t : Tile) :
    Option (List (List ℚ)) :=
  disk.lookup t

/-- The four child coordinates of a parent tile in source order, lines
508-513: top left, top right, bottom left, bottom right. -/
def childCoords (p : Tile) : List Tile :=
  [(2*p.1, 2*p.2), (2*p.1+1, 2*p.2), (2*p.1, 2*p.2+1), (2*p.1+1, 2*p.2+1)]

/-- Lines 519-527: load one child grid; an absent child is replaced by an
all-zero grid. -/
def loadChild (disk : List (Tile × List (List ℚ))) (c : Tile) : Grid :=
  match load_tile_data disk c with
  | some file => parse_tile_file file
  | none => fun _ _ => 0

/-- The np.all(downsampled == 0.0) test of line 534, restricted to the
declared n x n extent of the array. -/
def allZeroB (g : Grid) (n : ℕ) : Bool :=
  decide (∀ i, i < n → ∀ j, j < n → g i j = 0)

/-- Lines 515-542 for one parent tile: load the four children, downsample
them, and persist unless the result is uniformly zero.  A some result
means the parent is persisted with that grid. -/
def processParent (disk : List (Tile × List (List ℚ))) (ts : ℕ) (p : Tile) :
    Option Grid :=
  let g := downsample_tile
    (loadChild disk (2*p.1, 2*p.2)) (loadChild disk (2*p.1+1, 2*p.2))
    (loadChild disk (2*p.1, 2*p.2+1)) (loadChild disk (2*p.1+1, 2*p.2+1)) ts
  if allZeroB g ts then none else some g

/-- Lines 495-500: parent candidates derived from the present children by
python floor division // 2. -/
def derivedParents (disk : List (Tile × List (List ℚ))) : List Tile :=
  (disk.map fun e => (Int.fdiv e.1.1 2, Int.fdiv e.1.2 2)).dedup

/-- Lines 489-500: when a manifest holds entries for the target zoom they
are used directly as the candidate set, otherwise candidates are derived
from the present children. -/
def pyramidCandidates (disk : List (Tile × List (List ℚ)))
    (mf : Option (List Tile)) : List Tile :=
  match mf with
  | some m => m
  | none => derivedParents disk

/-- generate_pyramid_level (lines 460-544), reduced to the coordinates of
the parent tiles it persists at the target zoom. -/
def generate_pyramid_level (disk : List (Tile × List (List ℚ))) (ts : ℕ)
    (mf : Option (List Tile)) : List Tile :=
  (pyramidCandidates disk mf).filter fun p => (processParent disk ts p).isSome

/-- The integers from lo to hi inclusive. -/
def intRange (lo hi : ℤ) : List ℤ :=
  (List.range (hi + 1 - lo).toNat).map fun (k : ℕ) => lo + (k : ℤ)

/-- Lines 380-395: the raster-derived candidate coordinates of the base
zoom, the tile range clamped to [0, 2 ^ zoom - 1] on both axes. -/
def raster_tile_coords (zoom : ℕ) (minTx maxTx minTy maxTy : ℤ) : List Tile :=
  (intRange (max 0 minTx) (min (2^zoom - 1) maxTx)).flatMap fun tx =>
    (intRange (max 0 minTy) (min (2^zoom - 1) maxTy)).map fun ty => (tx, ty)

/-- Lines 397-404: the processed base tile list is the intersection with
the manifest entries of this zoom when a manifest is given. -/
def base_tile_coords (rasterCoords : List Tile) (target : Option (List Tile)) :
    List Tile :=
  match target with
  | some m => rasterCoords.filter fun t => m.contains t
  | none => rasterCoords

/-- Result of the try block body of generate_single_base_tile: either a
normal return carrying the persisted flag and a message, or a raised
exception. -/
inductive BaseResult where
  | ok (persisted : Bool) (msg : String)
  | exn (e : String)

/-- generate_single_base_tile (lines 252-367): the surrounding try/except
turns any exception raised by the body into a failed outcome for this one
tile (lines 366-367). -/
def generate_single_base_tile (t : Tile) (body : Tile → BaseResult) :
    Tile × Bool × String :=
  match body t with
  | BaseResult.ok p m => (t, p, m)
  | BaseResult.exn e => (t, false, "Error: " ++ e)

/-- generate_text_tiles (lines 167-250): when the raster cannot be opened
the run aborts with result false before any tile work starts; otherwise
every candidate tile is processed and the run result is true regardless
of the per-tile outcomes. -/
def generate_text_tiles (rasterOpens : Bool) (tiles : List Tile)
    (body : Tile → BaseResult) : Bool × List (Tile × Bool × String) :=
  if rasterOpens then (true, tiles.map fun t => generate_single_base_tile t body)
  else (false, [])

/-- Line 428: the chunk size handed to the worker pool. -/
def chunk_size (total numProc : ℕ) : ℕ := max 1 (total / (numProc * 4))

/-- Cuts a list into chunks of size c + 1 (the last chunk may be
shorter). -/
def chunkList (c : ℕ) : List α → List (List α)
  | [] => []
  | x :: xs => (x :: List.take c xs) :: chunkList c (List.drop c xs)
termination_by l => l.length
decreasing_by simp [List.length_drop]; omega

/-- Pool.map of line 430 over the task list: the tasks are cut into
chunks, each chunk is mapped by some worker on its own state, and the
results are reassembled in task order. -/
def pool_map (f : α → β) (tasks : List α) (numProc : ℕ) : List β :=
  ((chunkList (chunk_size tasks.length numProc - 1) tasks).map (List.map f)).flatten

/-- Lines 326-327: the latitude and longitude of grid point (i, j).  With
tile_size 1 the divisor tile_size - 1 is zero and python raises
ZeroDivisionError. -/
def grid_point (north south west east : ℚ) (ts i j : ℕ) :
    Except String (ℚ × ℚ) :=
  if (ts : ℤ) - 1 = 0 then Except.error "float division by zero"
  else Except.ok (north - (north - south) * i / ((ts : ℚ) - 1),
                  west + (east - west) * j / ((ts : ℚ) - 1))

/-- The inner loop over j of line 324 for a fixed row i: the first raised
error escapes the loop. -/
def sample_row (north south west east : ℚ) (ts i : ℕ) :
    ℕ → Except String (List (ℚ × ℚ))
  | 0 => Except.ok []
  | j + 1 =>
    match grid_point north south west east ts i j with
    | Except.error e => Except.error e
    | Except.ok p =>
      match sample_row north south west east ts i j with
      | Except.error e => Except.error e
      | Except.ok ps => Except.ok (p :: ps)

/-- The outer loop over i of line 323. -/
def sample_grid (north south west east : ℚ) (ts : ℕ) :
    ℕ → Except String (List (List (ℚ × ℚ)))
  | 0 => Except.ok []
  | i + 1 =>
    match sample_row north south west east ts i ts with
    | Except.error e => Except.error e
    | Except.ok r =>
      match sample_grid north south west east ts i with
      | Except.error e => Except.error e
      | Except.ok rs => Except.ok (r :: rs)

/-- The grid point placement loop of lines 323-347.  The division guard
of grid_point does not depend on the loop indices, so the iteration order
is immaterial to the raised error. -/
def sample_loop (north south west east : ℚ) (ts : ℕ) :
    Except String (List (List (ℚ × ℚ))) :=
  sample_grid north south west east ts ts

/-- The try block body around the sampling loop: a raised error becomes
an exception captured by generate_single_base_tile; all further work on
the sampled points is the continuation rest. -/
def base_tile_body (north south west east : ℚ) (ts : ℕ)
    (rest : List (List (ℚ × ℚ)) → BaseResult) : BaseResult :=
  match sample_loop north south west east ts with
  | Except.error e => BaseResult.exn e
  | Except.ok pts => rest pts

/-- python int(): truncation toward zero. -/
noncomputable def intTrunc (v : ℝ) : ℤ := if 0 ≤ v then ⌊v⌋ else ⌈v⌉

/-- deg2num (lines 53-59): latitude and longitude in degrees to the tile
indices of the zoom level. -/
noncomputable def deg2num (lat_deg lon_deg : ℝ) (zoom : ℕ) : ℤ × ℤ :=
  let lat_rad := lat_deg * (Real.pi / 180)
  let n : ℝ := 2 ^ zoom
  (intTrunc ((lon_deg + 180) / 360 * n),
   intTrunc ((1 - Real.arsinh (Real.tan lat_rad) / Real.pi) / 2 * n))

/-- num2deg (lines 61-67): tile indices to (lat, lon) in degrees of the
north west corner of the tile. -/
noncomputable def num2deg (xtile ytile : ℤ) (zoom : ℕ) : ℝ × ℝ :=
  let n : ℝ := 2 ^ zoom
  let lat_rad := Real.arctan (Real.sinh (Real.pi * (1 - 2 * ytile / n)))
  (lat_rad * (180 / Real.pi), xtile / n * 360 - 180)

/-- All stored values of an n x n grid. -/
def gridVals (g : Grid) (n : ℕ) : List ℚ :=
  (List.range n).flatMap fun i => (List.range n).map fun j => g i j

/-- All values of the four children of a parent tile. -/
def childrenVals (p0 p1 p2 p3 : Grid) (n : ℕ) : List ℚ :=
  gridVals p0 n ++ gridVals p1 n ++ gridVals p2 n ++ gridVals p3 n

/-- The minimum over all values of the four children (the seed value is
itself a child value whenever n is positive). -/
def childrenMin (p0 p1 p2 p3 : Grid) (n : ℕ) : ℚ :=
  (childrenVals p0 p1 p2 p3 n).foldr min (p0 0 0)

/-- The maximum over all values of the four children. -/
def childrenMax (p0 p1 p2 p3 : Grid) (n : ℕ) : ℚ :=
  (childrenVals p0 p1 p2 p3 n).foldr max (p0 0 0)

/-- A 2 x 2 child grid used in concrete counterexamples: zero at the top
left corner, four elsewhere. -/
def cexTL : Grid := fun i j => if i = 0 ∧ j = 0 then 0 else 4

/-- A constant child grid with value four. -/
def cexConst4 : Grid := fun _ _ => 4

/-- A stored 2 x 2 child file whose only nonzero value sits at row 0,
column 1, a position never sampled by the 2:1 zoom of a 4 x 4 matrix. -/
def cexChildFile : List (List ℚ) := [[0, 5], [0, 0]]

/-- A disk holding exactly that child at coordinate (0, 0). -/
def cexDisk : List (Tile × List (List ℚ)) := [((0, 0), cexChildFile)]

end TextTiles

namespace TextTiles

lemma zoomPos_zero (n : ℕ) : zoomPos n 0 = 0 := by
  simp [zoomPos]

lemma zoomPos_last {n : ℕ} (hn : 2 ≤ n) : zoomPos n (n - 1) = ((2 * n - 1 : ℕ) : ℚ) := by
  have hne : (n : ℚ) - 1 ≠ 0 := by
    have : (2:ℚ) ≤ (n:ℚ) := by exact_mod_cast hn
    linarith
  rw [zoomPos, Nat.cast_sub (by omega : 1 ≤ n), Nat.cast_sub (by omega : 1 ≤ 2 * n)]
  push_cast
  field_simp

lemma zoomPos_nonneg {n i : ℕ} (h : i < n) : 0 ≤ zoomPos n i := by
  rcases Nat.lt_or_ge n 2 with h2 | h2
  · have hi : i = 0 := by omega
    subst hi
    simp [zoomPos]
  · have hn : (2:ℚ) ≤ (n:ℚ) := by exact_mod_cast h2
    apply div_nonneg
    · apply mul_nonneg (by positivity)
      linarith
    · linarith

lemma zoomPos_le {n i : ℕ} (h : i < n) : zoomPos n i ≤ ((2 * n - 1 : ℕ) : ℚ) := by
  rcases Nat.lt_or_ge n 2 with h2 | h2
  · have hn : n = 1 := by omega
    have hi : i = 0 := by omega
    subst hn; subst hi
    norm_num [zoomPos]
  · have hn : (2:ℚ) ≤ (n:ℚ) := by exact_mod_cast h2
    have hi : (i:ℚ) ≤ (n:ℚ) - 1 := by
      have : (i:ℚ) + 1 ≤ (n:ℚ) := by exact_mod_cast h
      linarith
    rw [Nat.cast_sub (by omega : 1 ≤ 2 * n), zoomPos]
    push_cast
    rw [div_le_iff₀ (by linarith : (0:ℚ) < (n:ℚ) - 1)]
    nlinarith

lemma zoom_interp_natCast (g : Grid) (m : ℕ) (a b : ℕ) :
    zoom_interp g m (a : ℚ) (b : ℚ) = g a b := by
  unfold zoom_interp
  simp [Int.floor_natCast]

lemma convex2 {t a b lo hi : ℚ} (ht0 : 0 ≤ t) (ht1 : t ≤ 1)
    (ha : lo ≤ a ∧ a ≤ hi) (hb : lo ≤ b ∧ b ≤ hi) :
    lo ≤ (1 - t) * a + t * b ∧ (1 - t) * a + t * b ≤ hi := by
  constructor <;> nlinarith [ha.1, ha.2, hb.1, hb.2]

lemma zoom_interp_bounds {g : Grid} {m : ℕ} {y x lo hi : ℚ}
    (hg : ∀ a, a < m → ∀ b, b < m → lo ≤ g a b ∧ g a b ≤ hi)
    (hy0 : 0 ≤ y) (hy1 : y ≤ ((m - 1 : ℕ) : ℚ))
    (hx0 : 0 ≤ x) (hx1 : x ≤ ((m - 1 : ℕ) : ℚ)) (hm1 : 1 ≤ m) :
    lo ≤ zoom_interp g m y x ∧ zoom_interp g m y x ≤ hi := by
  have idx : ∀ z : ℚ, 0 ≤ z → z ≤ ((m - 1 : ℕ) : ℚ) → (⌊z⌋).toNat < m ∧
      ((⌊z⌋).toNat : ℚ) = (⌊z⌋ : ℚ) ∧ 0 ≤ z - ((⌊z⌋).toNat : ℚ) ∧
      z - ((⌊z⌋).toNat : ℚ) ≤ 1 := by
    intro z hz0 hz1
    have hfl0 : 0 ≤ ⌊z⌋ := Int.floor_nonneg.mpr hz0
    have hcast : ((⌊z⌋).toNat : ℚ) = (⌊z⌋ : ℚ) := by
      exact_mod_cast congrArg (Int.cast : ℤ → ℚ) (Int.toNat_of_nonneg hfl0)
    have hle : ⌊z⌋ ≤ ((m - 1 : ℕ) : ℤ) := by
      have := Int.floor_le_floor hz1
      rwa [Int.floor_natCast] at this
    refine ⟨?_, hcast, ?_, ?_⟩
    · have := Int.toNat_le_toNat hle
      rw [Int.toNat_natCast] at this
      omega
    · rw [hcast]
      have := Int.floor_le z
      linarith
    · rw [hcast]
      have := Int.lt_floor_add_one z
      linarith
  obtain ⟨hyi, hyc, hdy0, hdy1⟩ := idx y hy0 hy1
  obtain ⟨hxi, hxc, hdx0, hdx1⟩ := idx x hx0 hx1
  unfold zoom_interp
  have hy2 : min ((⌊y⌋).toNat + 1) (m - 1) < m := by omega
  have hx2 : min ((⌊x⌋).toNat + 1) (m - 1) < m := by omega
  exact convex2 hdy0 hdy1
    (convex2 hdx0 hdx1 (hg _ hyi _ hxi) (hg _ hyi _ hx2))
    (convex2 hdx0 hdx1 (hg _ hy2 _ hxi) (hg _ hy2 _ hx2))

lemma combineQuad_prop {p0 p1 p2 p3 : Grid} {n : ℕ} {P : ℚ → Prop}
    (h0 : ∀ a, a < n → ∀ b, b < n → P (p0 a b))
    (h1 : ∀ a, a < n → ∀ b, b < n → P (p1 a b))
    (h2 : ∀ a, a < n → ∀ b, b < n → P (p2 a b))
    (h3 : ∀ a, a < n → ∀ b, b < n → P (p3 a b)) :
    ∀ a, a < 2 * n → ∀ b, b < 2 * n → P (combineQuad p0 p1 p2 p3 n a b) := by
  intro a ha b hb
  unfold combineQuad vstack2 hstack2
  by_cases hai : a < n <;> by_cases hbi : b < n <;> simp only [hai, hbi, if_true, if_false]
  · exact h0 a hai b hbi
  · exact h1 a hai (b - n) (by omega)
  · exact h2 (a - n) (by omega) b hbi
  · exact h3 (a - n) (by omega) (b - n) (by omega)

lemma downsample_tile_bounds {p0 p1 p2 p3 : Grid} {n : ℕ} {lo hi : ℚ}
    (h0 : ∀ a, a < n → ∀ b, b < n → lo ≤ p0 a b ∧ p0 a b ≤ hi)
    (h1 : ∀ a, a < n → ∀ b, b < n → lo ≤ p1 a b ∧ p1 a b ≤ hi)
    (h2 : ∀ a, a < n → ∀ b, b < n → lo ≤ p2 a b ∧ p2 a b ≤ hi)
    (h3 : ∀ a, a < n → ∀ b, b < n → lo ≤ p3 a b ∧ p3 a b ≤ hi)
    {i j : ℕ} (hij : i < n) (hjj : j < n) :
    lo ≤ downsample_tile p0 p1 p2 p3 n i j ∧ downsample_tile p0 p1 p2 p3 n i j ≤ hi := by
  unfold downsample_tile
  exact zoom_interp_bounds
    (combineQuad_prop (P := fun v => lo ≤ v ∧ v ≤ hi) h0 h1 h2 h3)
    (zoomPos_nonneg hij) (zoomPos_le hij) (zoomPos_nonneg hjj) (zoomPos_le hjj)
    (by omega)

lemma downsample_tile_eq_zero {p0 p1 p2 p3 : Grid} {n : ℕ}
    (h0 : ∀ a, a < n → ∀ b, b < n → p0 a b = 0)
    (h1 : ∀ a, a < n → ∀ b, b < n → p1 a b = 0)
    (h2 : ∀ a, a < n → ∀ b, b < n → p2 a b = 0)
    (h3 : ∀ a, a < n → ∀ b, b < n → p3 a b = 0)
    {i j : ℕ} (hij : i < n) (hjj : j < n) :
    downsample_tile p0 p1 p2 p3 n i j = 0 := by
  have hzero : ∀ g : Grid, (∀ a, a < n → ∀ b, b < n → g a b = 0) →
      ∀ a, a < n → ∀ b, b < n → (0:ℚ) ≤ g a b ∧ g a b ≤ 0 :=
    fun g hg a ha b hb => ⟨(hg a ha b hb).ge, (hg a ha b hb).le⟩
  have h := downsample_tile_bounds (hzero p0 h0) (hzero p1 h1) (hzero p2 h2)
    (hzero p3 h3) hij hjj
  linarith [h.1, h.2]

end TextTiles

namespace TextTiles

lemma allZeroB_eq_true {g : Grid} {n : ℕ}
    (h : ∀ i, i < n → ∀ j, j < n → g i j = 0) : allZeroB g n = true := by
  unfold allZeroB
  exact decide_eq_true h

lemma loadChild_absent {disk : List (Tile × List (List ℚ))} {c : Tile}
    (h : load_tile_data disk c = none) : loadChild disk c = fun _ _ => 0 := by
  unfold loadChild
  rw [h]

lemma processParent_eq_none {disk : List (Tile × List (List ℚ))} {ts : ℕ} {p : Tile}
    (h : ∀ c ∈ childCoords p, ∀ a, a < ts → ∀ b, b < ts → loadChild disk c a b = 0) :
    processParent disk ts p = none := by
  unfold processParent
  rw [if_pos]
  apply allZeroB_eq_true
  intro i hij j hjj
  exact downsample_tile_eq_zero
    (h (2*p.1, 2*p.2) (by simp [childCoords]))
    (h (2*p.1+1, 2*p.2) (by simp [childCoords]))
    (h (2*p.1, 2*p.2+1) (by simp [childCoords]))
    (h (2*p.1+1, 2*p.2+1) (by simp [childCoords]))
    hij hjj

lemma mem_generate_pyramid_level {disk : List (Tile × List (List ℚ))} {ts : ℕ}
    {mf : Option (List Tile)} {p : Tile} (h : p ∈ generate_pyramid_level disk ts mf) :
    p ∈ pyramidCandidates disk mf ∧ ∃ c ∈ childCoords p, (load_tile_data disk c).isSome := by
  unfold generate_pyramid_level at h
  rw [List.mem_filter] at h
  refine ⟨h.1, ?_⟩
  by_contra hc
  push_neg at hc
  have hnone : ∀ c ∈ childCoords p, load_tile_data disk c = none := by
    intro c hcm
    cases hl : load_tile_data disk c with
    | none => rfl
    | some f => exact absurd (by simp [hl] : (load_tile_data disk c).isSome = true) (hc c hcm)
  have hpn : processParent disk ts p = none := by
    apply processParent_eq_none
    intro c hcm a ha b hb
    rw [loadChild_absent (hnone c hcm)]
  rw [hpn] at h
  simp at h

lemma mem_of_lookup_eq_some {disk : List (Tile × List (List ℚ))} {t : Tile}
    {f : List (List ℚ)} (h : disk.lookup t = some f) : (t, f) ∈ disk := by
  induction disk with
  | nil => simp [List.lookup] at h
  | cons e rest ih =>
    rcases e with ⟨k, v⟩
    rw [List.lookup] at h
    by_cases he : t = k
    · subst he
      simp at h
      subst h
      exact List.mem_cons_self _ _
    · have hbe : (t == k) = false := beq_false_of_ne he
      rw [hbe] at h
      exact List.mem_cons_of_mem _ (ih h)

lemma fdiv_two (x : ℤ) : Int.fdiv x 2 = x / 2 := Int.fdiv_eq_ediv x (by norm_num)

lemma parent_of_child_mem {disk : List (Tile × List (List ℚ))} {p c : Tile}
    (hc : c ∈ childCoords p) (hs : (load_tile_data disk c).isSome) :
    p ∈ derivedParents disk := by
  obtain ⟨f, hf⟩ := Option.isSome_iff_exists.mp hs
  have hmem : (c, f) ∈ disk := mem_of_lookup_eq_some hf
  have hp : (Int.fdiv c.1 2, Int.fdiv c.2 2) = p := by
    rcases p with ⟨px, py⟩
    simp [childCoords] at hc
    rcases hc with h | h | h | h <;> subst h <;>
      simp only [fdiv_two, Prod.mk.injEq] <;> omega
  unfold derivedParents
  rw [List.mem_dedup, ← hp]
  exact List.mem_map.mpr ⟨(c, f), hmem, rfl⟩

end TextTiles

namespace TextTiles

lemma foldr_min_le {l : List ℚ} {a : ℚ} (s : ℚ) (h : a ∈ l) : l.foldr min s ≤ a := by
  induction l with
  | nil => simp at h
  | cons b t ih =>
    rcases List.mem_cons.mp h with rfl | ht
    · exact min_le_left _ _
    · exact le_trans (min_le_right _ _) (ih ht)

lemma le_foldr_max {l : List ℚ} {a : ℚ} (s : ℚ) (h : a ∈ l) : a ≤ l.foldr max s := by
  induction l with
  | nil => simp at h
  | cons b t ih =>
    rcases List.mem_cons.mp h with rfl | ht
    · exact le_max_left _ _
    · exact le_trans (ih ht) (le_max_right _ _)

lemma mem_gridVals {g : Grid} {n a b : ℕ} (ha : a < n) (hb : b < n) :
    g a b ∈ gridVals g n := by
  unfold gridVals
  rw [List.mem_flatMap]
  exact ⟨a, List.mem_range.mpr ha, List.mem_map.mpr ⟨b, List.mem_range.mpr hb, rfl⟩⟩

lemma rhe_intCast (k : ℤ) : rhe (k : ℚ) = k := by
  unfold rhe
  rw [Int.floor_intCast]
  norm_num

lemma fmt2_rep {q : ℚ} {k : ℤ} (hk : q * 100 = (k : ℚ)) : fmt2 q = q := by
  unfold fmt2
  rw [hk, rhe_intCast, div_eq_iff (by norm_num : (100:ℚ) ≠ 0)]
  linarith

lemma save_tile_data_length (g : Grid) (n : ℕ) : (save_tile_data g n).length = n := by
  simp [save_tile_data]

lemma save_tile_data_row_length {g : Grid} {n : ℕ} {row : List ℚ}
    (h : row ∈ save_tile_data g n) : row.length = n := by
  unfold save_tile_data at h
  rw [List.mem_map] at h
  obtain ⟨i, _, rfl⟩ := h
  simp

lemma parse_save {g : Grid} {n i j : ℕ} (hi : i < n) (hj : j < n) :
    parse_tile_file (save_tile_data g n) i j = fmt2 (g i j) := by
  have h1 : (save_tile_data g n).getD i [] = (List.range n).map fun j => fmt2 (g i j) := by
    unfold save_tile_data
    rw [List.getD_eq_getElem?_getD, List.getElem?_map, List.getElem?_range hi]
    simp
  unfold parse_tile_file
  rw [h1, List.getD_eq_getElem?_getD, List.getElem?_map, List.getElem?_range hj]
  simp

lemma mem_intRange {lo hi v : ℤ} (h : v ∈ intRange lo hi) : lo ≤ v ∧ v ≤ hi := by
  unfold intRange at h
  rcases List.mem_map.mp h with ⟨k, hk, rfl⟩
  rw [List.mem_range] at hk
  omega

lemma chunkList_flatten (c : ℕ) (l : List α) : (chunkList c l).flatten = l := by
  generalize hn : l.length = n
  induction n using Nat.strong_induction_on generalizing l with
  | _ n ih =>
    cases l with
    | nil => simp [chunkList]
    | cons x xs =>
      rw [chunkList, List.flatten_cons, List.cons_append,
        ih (xs.drop c).length (by simp at hn ⊢; omega) (xs.drop c) rfl,
        List.take_append_drop]

lemma pool_map_eq_map (f : α → β) (tasks : List α) (numProc : ℕ) :
    pool_map f tasks numProc = tasks.map f := by
  unfold pool_map
  generalize chunk_size tasks.length numProc - 1 = c
  rw [← List.map_flatten, chunkList_flatten]

end TextTiles

namespace TextTiles

lemma grid_point_ok {north south west east : ℚ} {ts : ℕ} (hts : 2 ≤ ts) (i j : ℕ) :
    grid_point north south west east ts i j =
      Except.ok (north - (north - south) * i / ((ts : ℚ) - 1),
                 west + (east - west) * j / ((ts : ℚ) - 1)) := by
  unfold grid_point
  rw [if_neg (by omega : ¬((ts : ℤ) - 1 = 0))]

lemma sample_row_ok {north south west east : ℚ} {ts : ℕ} (hts : 2 ≤ ts) (i : ℕ) :
    ∀ k, ∃ l, sample_row north south west east ts i k = Except.ok l := by
  intro k
  induction k with
  | zero => exact ⟨[], rfl⟩
  | succ j ih =>
    obtain ⟨l, hl⟩ := ih
    exact ⟨(north - (north - south) * i / ((ts : ℚ) - 1),
            west + (east - west) * j / ((ts : ℚ) - 1)) :: l, by
      rw [sample_row, grid_point_ok hts, hl]⟩

lemma sample_grid_ok {north south west east : ℚ} {ts : ℕ} (hts : 2 ≤ ts) :
    ∀ k, ∃ l, sample_grid north south west east ts k = Except.ok l := by
  intro k
  induction k with
  | zero => exact ⟨[], rfl⟩
  | succ i ih =>
    obtain ⟨l, hl⟩ := ih
    obtain ⟨r, hr⟩ := @sample_row_ok north south west east ts hts i ts
    exact ⟨r :: l, by rw [sample_grid, hr, hl]⟩

lemma sample_loop_one (north south west east : ℚ) :
    sample_loop north south west east 1 = Except.error "float division by zero" := by
  simp [sample_loop, sample_grid, sample_row, grid_point]

end TextTiles

namespace TextTiles

/-- C1 (counterexample): the downsampling of the code is not 2 x 2 block
averaging.  With tile size 2 and children holding a single zero at the
assembled top left corner, the code copies the corner value 0 while the
block average of the corresponding 2 x 2 block is 3. -/
theorem downsample_ne_block_average_cex :
    downsample_tile cexTL cexConst4 cexConst4 cexConst4 2 0 0 ≠
      specBlockAverage (combineQuad cexTL cexConst4 cexConst4 cexConst4 2) 0 0 := by
  with_unfolding_all decide

/-- C1 (amended): the downsampling step is endpoint aligned bilinear
resampling, output index i sampling assembled coordinate
i (2N - 1) / (N - 1); in particular each of the four corner cells of the
parent grid is copied exactly from the corresponding corner cell of the
corresponding child, not averaged over a 2 x 2 block. -/
theorem downsample_corners_exact (p0 p1 p2 p3 : Grid) (n : ℕ) (hn : 2 ≤ n) :
    downsample_tile p0 p1 p2 p3 n 0 0 = p0 0 0 ∧
    downsample_tile p0 p1 p2 p3 n 0 (n-1) = p1 0 (n-1) ∧
    downsample_tile p0 p1 p2 p3 n (n-1) 0 = p2 (n-1) 0 ∧
    downsample_tile p0 p1 p2 p3 n (n-1) (n-1) = p3 (n-1) (n-1) := by
  have h0 : zoomPos n 0 = ((0:ℕ) : ℚ) := by
    rw [zoomPos_zero]
    norm_num
  have hl : zoomPos n (n-1) = ((2*n-1 : ℕ) : ℚ) := zoomPos_last hn
  have hn0 : 0 < n := by omega
  have hno : ¬ (2*n-1 < n) := by omega
  have hsub : 2*n-1-n = n-1 := by omega
  unfold downsample_tile
  rw [h0, hl]
  simp only [zoom_interp_natCast]
  unfold combineQuad vstack2 hstack2
  refine ⟨?_, ?_, ?_, ?_⟩ <;> simp [hn0, hno, hsub]

/-- Witness for the amended C1 theorem at tile size 2. -/
theorem downsample_corners_exact_witness :
    downsample_tile cexTL cexConst4 cexConst4 cexConst4 2 0 0 = cexTL 0 0 ∧
    downsample_tile cexTL cexConst4 cexConst4 cexConst4 2 0 1 = cexConst4 0 1 ∧
    downsample_tile cexTL cexConst4 cexConst4 cexConst4 2 1 0 = cexConst4 1 0 ∧
    downsample_tile cexTL cexConst4 cexConst4 cexConst4 2 1 1 = cexConst4 1 1 :=
  downsample_corners_exact cexTL cexConst4 cexConst4 cexConst4 2 (by decide)

/-- C4: a parent whose four children are each absent or uniformly zero is
not persisted by the pyramid step, and a missing child is substituted by
an all-zero grid without failing the parent. -/
theorem all_zero_children_not_persisted (disk : List (Tile × List (List ℚ)))
    (ts : ℕ) (p : Tile)
    (h : ∀ c ∈ childCoords p, load_tile_data disk c = none ∨
      ∃ f, load_tile_data disk c = some f ∧
        ∀ a, a < ts → ∀ b, b < ts → parse_tile_file f a b = 0) :
    processParent disk ts p = none ∧
    ∀ c ∈ childCoords p, load_tile_data disk c = none →
      loadChild disk c = fun _ _ => 0 := by
  constructor
  · apply processParent_eq_none
    intro c hc a ha b hb
    rcases h c hc with hnone | ⟨f, hf, hz⟩
    · rw [loadChild_absent hnone]
    · unfold loadChild
      rw [hf]
      exact hz a ha b hb
  · intro c _ hnone
    exact loadChild_absent hnone

/-- Witness for C4 on an empty disk. -/
theorem all_zero_children_not_persisted_witness :
    processParent ([] : List (Tile × List (List ℚ))) 2 (0, 0) = none ∧
    ∀ c ∈ childCoords (0, 0), load_tile_data [] c = none →
      loadChild [] c = fun _ _ => 0 :=
  all_zero_children_not_persisted [] 2 (0, 0) (fun _ _ => Or.inl rfl)

/-- C5: with all four children present, every value of the downsampled
parent grid lies between the minimum and the maximum over all values of
the four children; the bilinear weights form a convex combination. -/
theorem downsample_within_children_bounds (p0 p1 p2 p3 : Grid) (n : ℕ)
    {i j : ℕ} (hi : i < n) (hj : j < n) :
    childrenMin p0 p1 p2 p3 n ≤ downsample_tile p0 p1 p2 p3 n i j ∧
    downsample_tile p0 p1 p2 p3 n i j ≤ childrenMax p0 p1 p2 p3 n := by
  have hmem0 : ∀ a, a < n → ∀ b, b < n → p0 a b ∈ childrenVals p0 p1 p2 p3 n := by
    intro a ha b hb
    unfold childrenVals
    simp only [List.mem_append]
    exact Or.inl (Or.inl (Or.inl (mem_gridVals ha hb)))
  have hmem1 : ∀ a, a < n → ∀ b, b < n → p1 a b ∈ childrenVals p0 p1 p2 p3 n := by
    intro a ha b hb
    unfold childrenVals
    simp only [List.mem_append]
    exact Or.inl (Or.inl (Or.inr (mem_gridVals ha hb)))
  have hmem2 : ∀ a, a < n → ∀ b, b < n → p2 a b ∈ childrenVals p0 p1 p2 p3 n := by
    intro a ha b hb
    unfold childrenVals
    simp only [List.mem_append]
    exact Or.inl (Or.inr (mem_gridVals ha hb))
  have hmem3 : ∀ a, a < n → ∀ b, b < n → p3 a b ∈ childrenVals p0 p1 p2 p3 n := by
    intro a ha b hb
    unfold childrenVals
    simp only [List.mem_append]
    exact Or.inr (mem_gridVals ha hb)
  exact downsample_tile_bounds
    (fun a ha b hb => ⟨foldr_min_le _ (hmem0 a ha b hb), le_foldr_max _ (hmem0 a ha b hb)⟩)
    (fun a ha b hb => ⟨foldr_min_le _ (hmem1 a ha b hb), le_foldr_max _ (hmem1 a ha b hb)⟩)
    (fun a ha b hb => ⟨foldr_min_le _ (hmem2 a ha b hb), le_foldr_max _ (hmem2 a ha b hb)⟩)
    (fun a ha b hb => ⟨foldr_min_le _ (hmem3 a ha b hb), le_foldr_max _ (hmem3 a ha b hb)⟩)
    hi hj

/-- Witness for C5 at tile size 2 with concrete children. -/
theorem downsample_within_children_bounds_witness :
    childrenMin cexTL cexConst4 cexConst4 cexConst4 2 ≤
      downsample_tile cexTL cexConst4 cexConst4 cexConst4 2 1 1 ∧
    downsample_tile cexTL cexConst4 cexConst4 cexConst4 2 1 1 ≤
      childrenMax cexTL cexConst4 cexConst4 cexConst4 2 :=
  @downsample_within_children_bounds cexTL cexConst4 cexConst4 cexConst4 2 1 1
    (by decide) (by decide)

/-- C6: saving a grid writes exactly N lines of N two-decimal values, the
stored file is found again under its key, and for values exactly
representable at two decimals the reloaded grid equals the original. -/
theorem save_load_roundtrip (g : Grid) (n : ℕ) (t : Tile)
    (h : ∀ i, i < n → ∀ j, j < n → ∃ k : ℤ, g i j * 100 = (k : ℚ)) :
    (save_tile_data g n).length = n ∧
    (∀ row ∈ save_tile_data g n, row.length = n) ∧
    load_tile_data [(t, save_tile_data g n)] t = some (save_tile_data g n) ∧
    (∀ i, i < n → ∀ j, j < n → parse_tile_file (save_tile_data g n) i j = g i j) := by
  refine ⟨save_tile_data_length g n, fun row hr => save_tile_data_row_length hr, ?_, ?_⟩
  · unfold load_tile_data
    simp [List.lookup]
  · intro i hi j hj
    obtain ⟨k, hk⟩ := h i hi j hj
    rw [parse_save hi hj, fmt2_rep hk]

/-- Witness for C6 on a constant grid of value 4. -/
theorem save_load_roundtrip_witness :
    (save_tile_data cexConst4 2).length = 2 ∧
    (∀ row ∈ save_tile_data cexConst4 2, row.length = 2) ∧
    load_tile_data [((0, 0), save_tile_data cexConst4 2)] (0, 0) =
      some (save_tile_data cexConst4 2) ∧
    (∀ i, i < 2 → ∀ j, j < 2 →
      parse_tile_file (save_tile_data cexConst4 2) i j = cexConst4 i j) :=
  save_load_roundtrip cexConst4 2 (0, 0)
    (fun _ _ _ _ => ⟨400, by norm_num [cexConst4]⟩)

/-- C7: the run result is false exactly when the raster cannot be opened,
in which case no tile is processed; when it opens, every candidate tile
yields an outcome, the run result is true independently of the per-tile
outcomes, and an exception in one tile becomes a failed outcome for that
tile only. -/
theorem run_result_reflects_raster_open (tiles : List Tile)
    (body : Tile → BaseResult) (t : Tile) (e : String) :
    (generate_text_tiles false tiles body).1 = false ∧
    (generate_text_tiles false tiles body).2 = [] ∧
    (generate_text_tiles true tiles body).1 = true ∧
    (generate_text_tiles true tiles body).2.length = tiles.length ∧
    (body t = BaseResult.exn e →
      generate_single_base_tile t body = (t, false, "Error: " ++ e)) := by
  refine ⟨rfl, rfl, rfl, ?_, ?_⟩
  · simp [generate_text_tiles]
  · intro hb
    unfold generate_single_base_tile
    rw [hb]

/-- Witness for C7 with a body that raises. -/
theorem run_result_reflects_raster_open_witness :
    (generate_text_tiles false [((0:ℤ), (0:ℤ))] (fun _ => BaseResult.exn "boom")).1 = false ∧
    (generate_text_tiles false [((0:ℤ), (0:ℤ))] (fun _ => BaseResult.exn "boom")).2 = [] ∧
    (generate_text_tiles true [((0:ℤ), (0:ℤ))] (fun _ => BaseResult.exn "boom")).1 = true ∧
    (generate_text_tiles true [((0:ℤ), (0:ℤ))] (fun _ => BaseResult.exn "boom")).2.length =
      [((0:ℤ), (0:ℤ))].length ∧
    ((fun _ => BaseResult.exn "boom") ((0, 0) : Tile) = BaseResult.exn "boom" →
      generate_single_base_tile (0, 0) (fun _ => BaseResult.exn "boom") =
        ((0, 0), false, "Error: " ++ "boom")) :=
  run_result_reflects_raster_open [(0, 0)] (fun _ => BaseResult.exn "boom") (0, 0) "boom"

/-- C9: the outcome of the parallel base phase is the plain map of the
per-tile task function over the task list, for every worker count; hence
two runs with different worker counts produce identical outcomes. -/
theorem pool_map_worker_count_independent {α β : Type} (f : α → β)
    (tasks : List α) (p q : ℕ) :
    pool_map f tasks p = tasks.map f ∧ pool_map f tasks p = pool_map f tasks q := by
  exact ⟨pool_map_eq_map f tasks p, by rw [pool_map_eq_map, pool_map_eq_map]⟩

/-- C10: with tile size 1 the sampling loop raises a float division by
zero which the per-tile handler turns into a failed outcome, so the tile
is not persisted; with tile size at least 2 the loop never raises. -/
theorem tile_size_one_division_error (north south west east : ℚ) (ts : ℕ)
    (rest : List (List (ℚ × ℚ)) → BaseResult) (t : Tile) :
    (sample_loop north south west east 1 = Except.error "float division by zero" ∧
     generate_single_base_tile t (fun _ => base_tile_body north south west east 1 rest) =
       (t, false, "Error: float division by zero")) ∧
    (2 ≤ ts → ∃ l, sample_loop north south west east ts = Except.ok l) := by
  constructor
  · have h1 := sample_loop_one north south west east
    exact ⟨h1, by simp only [generate_single_base_tile, base_tile_body, h1]; rfl⟩
  · intro hts
    exact sample_grid_ok hts ts

/-- Witness for C10 at concrete bounds and tile size 2. -/
theorem tile_size_one_division_error_witness :
    (sample_loop 10 0 0 10 1 = Except.error "float division by zero" ∧
     generate_single_base_tile (0, 0)
       (fun _ => base_tile_body 10 0 0 10 1 (fun _ => BaseResult.ok true "Success")) =
       ((0, 0), false, "Error: float division by zero")) ∧
    (2 ≤ 2 → ∃ l, sample_loop 10 0 0 10 2 = Except.ok l) :=
  tile_size_one_division_error 10 0 0 10 2 (fun _ => BaseResult.ok true "Success") (0, 0)

end TextTiles

namespace TextTiles

/-- C2 (counterexample): with a manifest, the persisted set of a pyramid
level is not always the intersection of raster-derived candidates and
manifest entries.  On a disk holding one child whose only nonzero value
is never hit by the endpoint aligned resampling, parent (0, 0) lies in
the intersection yet is skipped as uniformly zero. -/
theorem target_filter_generated_ne_inter_cex :
    ¬ (∀ p : Tile, p ∈ generate_pyramid_level cexDisk 2 (some [(0, 0)]) ↔
        p ∈ derivedParents cexDisk ∧ p ∈ ([(0, 0)] : List Tile)) := by
  intro h
  have hmem : ((0, 0) : Tile) ∈ generate_pyramid_level cexDisk 2 (some [(0, 0)]) :=
    (h (0, 0)).mpr (by with_unfolding_all decide)
  revert hmem
  with_unfolding_all decide

/-- C2 (amended): at the base zoom the candidate set is exactly the
intersection of raster-derived candidates and manifest entries; at a
pyramid level every generated tile lies in that intersection (no tile of
the manifest without persisted children and no derived tile outside the
manifest is generated, and out-of-range manifest tiles are dropped
without error), but a tile of the intersection may still be skipped when
its downsample is uniformly zero. -/
theorem target_filter_subset_inter (raster : List Tile) (mb : List Tile)
    (disk : List (Tile × List (List ℚ))) (ts : ℕ) (m : List Tile) :
    (∀ t, t ∈ base_tile_coords raster (some mb) ↔ t ∈ raster ∧ t ∈ mb) ∧
    (∀ p ∈ generate_pyramid_level disk ts (some m),
      p ∈ derivedParents disk ∧ p ∈ m) := by
  constructor
  · intro t
    unfold base_tile_coords
    rw [List.mem_filter]
    simp
  · intro p hp
    obtain ⟨hcand, c, hc, hs⟩ := mem_generate_pyramid_level hp
    exact ⟨parent_of_child_mem hc hs, hcand⟩

/-- Witness for the amended C2 theorem on a concrete disk and manifest. -/
theorem target_filter_subset_inter_witness :
    (∀ t, t ∈ base_tile_coords [((0:ℤ), (0:ℤ))] (some [(0, 0)]) ↔
      t ∈ [((0:ℤ), (0:ℤ))] ∧ t ∈ [((0:ℤ), (0:ℤ))]) ∧
    (∀ p ∈ generate_pyramid_level cexDisk 2 (some [(0, 0)]),
      p ∈ derivedParents cexDisk ∧ p ∈ ([(0, 0)] : List Tile)) :=
  target_filter_subset_inter [(0, 0)] [(0, 0)] cexDisk 2 [(0, 0)]

/-- C8: every base zoom candidate coordinate is clamped into
[0, 2 ^ z - 1] on both axes, and every parent persisted by the pyramid
step at zoom z satisfies the same bounds whenever the children on disk
satisfy them at zoom z + 1, both with and without a manifest. -/
theorem persisted_tile_coords_in_range (z : ℕ) (a b c d : ℤ)
    (disk : List (Tile × List (List ℚ))) (ts : ℕ) (mf : Option (List Tile))
    (hsrc : ∀ e ∈ disk, 0 ≤ e.1.1 ∧ e.1.1 < 2^(z+1) ∧ 0 ≤ e.1.2 ∧ e.1.2 < 2^(z+1)) :
    (∀ t ∈ raster_tile_coords z a b c d,
      0 ≤ t.1 ∧ t.1 < 2^z ∧ 0 ≤ t.2 ∧ t.2 < 2^z) ∧
    (∀ p ∈ generate_pyramid_level disk ts mf,
      0 ≤ p.1 ∧ p.1 < 2^z ∧ 0 ≤ p.2 ∧ p.2 < 2^z) := by
  have hK : (1:ℤ) ≤ 2^z := one_le_pow₀ (by norm_num)
  constructor
  · intro t ht
    unfold raster_tile_coords at ht
    rw [List.mem_flatMap] at ht
    obtain ⟨tx, htx, ht⟩ := ht
    rcases List.mem_map.mp ht with ⟨ty, hty, rfl⟩
    obtain ⟨hx1, hx2⟩ := mem_intRange htx
    obtain ⟨hy1, hy2⟩ := mem_intRange hty
    have hx1' : (0:ℤ) ≤ tx := le_trans (le_max_left _ _) hx1
    have hx2' : tx ≤ 2^z - 1 := le_trans hx2 (min_le_left _ _)
    have hy1' : (0:ℤ) ≤ ty := le_trans (le_max_left _ _) hy1
    have hy2' : ty ≤ 2^z - 1 := le_trans hy2 (min_le_left _ _)
    exact ⟨hx1', by omega, hy1', by omega⟩
  · intro p hp
    obtain ⟨-, cc, hcc, hs⟩ := mem_generate_pyramid_level hp
    obtain ⟨f, hf⟩ := Option.isSome_iff_exists.mp hs
    have hmem := mem_of_lookup_eq_some hf
    have hb := hsrc (cc, f) hmem
    have hpow : (2:ℤ)^(z+1) = 2 * 2^z := by ring
    rw [hpow] at hb
    rcases p with ⟨px, py⟩
    simp [childCoords] at hcc
    rcases hcc with h | h | h | h <;> subst h <;>
      simp only at hb <;> exact ⟨by omega, by omega, by omega, by omega⟩

/-- Witness for C8 on a concrete disk at source zoom 2. -/
theorem persisted_tile_coords_in_range_witness :
    (∀ t ∈ raster_tile_coords 1 0 5 0 5,
      0 ≤ t.1 ∧ t.1 < 2^1 ∧ 0 ≤ t.2 ∧ t.2 < 2^1) ∧
    (∀ p ∈ generate_pyramid_level cexDisk 2 none,
      0 ≤ p.1 ∧ p.1 < 2^1 ∧ 0 ≤ p.2 ∧ p.2 < 2^1) :=
  persisted_tile_coords_in_range 1 0 5 0 5 cexDisk 2 none
    (by intro e he; simp [cexDisk] at he; subst he; norm_num)

end TextTiles

namespace TextTiles

/-- C3: converting tile indices to the latitude and longitude of the
north west corner of the tile and applying the forward conversion at the
same zoom recovers the indices exactly, in exact real arithmetic. -/
theorem deg2num_num2deg_roundtrip (x y : ℤ) (z : ℕ)
    (_hx0 : 0 ≤ x) (_hx1 : x < 2^z) (_hy0 : 0 ≤ y) (_hy1 : y < 2^z) :
    deg2num (num2deg x y z).1 (num2deg x y z).2 z = (x, y) := by
  have hn : ((2:ℝ)^z) ≠ 0 := by positivity
  have hpi : Real.pi ≠ 0 := Real.pi_ne_zero
  have htr : ∀ k : ℤ, intTrunc (k : ℝ) = k := by
    intro k
    unfold intTrunc
    by_cases hk : (0:ℝ) ≤ (k:ℝ)
    · rw [if_pos hk, Int.floor_intCast]
    · rw [if_neg hk, Int.ceil_intCast]
  have e1 : (((x:ℝ) / (2:ℝ)^z * 360 - 180) + 180) / 360 * (2:ℝ)^z = (x:ℝ) := by
    field_simp
    ring
  have e2 : (1 - Real.arsinh (Real.tan
      (Real.arctan (Real.sinh (Real.pi * (1 - 2 * (y:ℝ) / (2:ℝ)^z))) * (180 / Real.pi) *
        (Real.pi / 180))) / Real.pi) / 2 * (2:ℝ)^z = (y:ℝ) := by
    have hconv : Real.arctan (Real.sinh (Real.pi * (1 - 2 * (y:ℝ) / (2:ℝ)^z))) *
        (180 / Real.pi) * (Real.pi / 180) =
        Real.arctan (Real.sinh (Real.pi * (1 - 2 * (y:ℝ) / (2:ℝ)^z))) := by
      field_simp
    rw [hconv, Real.tan_arctan, Real.arsinh_sinh, mul_div_cancel_left₀ _ hpi]
    field_simp
    ring
  show (intTrunc ((((x:ℝ) / (2:ℝ)^z * 360 - 180) + 180) / 360 * (2:ℝ)^z),
        intTrunc ((1 - Real.arsinh (Real.tan
          (Real.arctan (Real.sinh (Real.pi * (1 - 2 * (y:ℝ) / (2:ℝ)^z))) * (180 / Real.pi) *
            (Real.pi / 180))) / Real.pi) / 2 * (2:ℝ)^z)) = (x, y)
  rw [e1, e2, htr, htr]

/-- Witness for C3 at tile (1, 2) of zoom 3. -/
theorem deg2num_num2deg_roundtrip_witness :
    deg2num (num2deg 1 2 3).1 (num2deg 1 2 3).2 3 = (1, 2) :=
  deg2num_num2deg_roundtrip 1 2 3 (by norm_num) (by norm_num) (by norm_num) (by norm_num)

end TextTiles
